import Mathlib

set_option maxHeartbeats 1000000
set_option maxRecDepth 10000

/-!
Verification of the FileBot MUMPS access layer.

Python strings are modelled as `List Char` (ASCII data), Python `None` as
`Option.none`, exceptions as `Except`, and the hierarchical global store as an
association list from subscript paths to values.  The IRIS backend primitives
(`get` / `set` / `order` / `isDefined` of the vendor SDK) are not part of the
repository; they are modelled from the specification of the store (collation
rule of §4.1, operation contract of §4.2).
-/

namespace Filebot

/-- Python strings are modelled as lists of characters (ASCII data). -/
abbrev PyStr := List Char

/-- Embed a Lean string literal into the Python-string model. -/
def pystr (s : String) : PyStr := s.data

/-- ASCII decimal digit test (model of Python `str.isdigit` on ASCII data). -/
def isDigitCh (c : Char) : Bool := decide ('0' ≤ c) && decide (c ≤ '9')

/-- Python `s.isdigit()`: nonempty and all characters are digits. -/
def pyIsDigit (s : PyStr) : Bool := !s.isEmpty && s.all isDigitCh

/-- Python `int(s)` on an all-digit string: decimal value. -/
def digitsToNat (s : PyStr) : Nat := s.foldl (fun a c => a * 10 + (c.toNat - 48)) 0

/-- Left-pad a string with `'0'` to width `w` (Python zero-padded formatting). -/
def padZeros (w : Nat) (s : PyStr) : PyStr := List.replicate (w - s.length) '0' ++ s

/-- Python `f"{n:0wd}"` for a natural number `n`. -/
def pyFormatNat (w : Nat) (n : Nat) : PyStr := padZeros w (Nat.toDigits 10 n)

/-- Python `f"{i:0wd}"` for an integer `i`: the sign counts toward the width
and precedes the zero padding. -/
def pyFormatInt (w : Nat) (i : Int) : PyStr :=
  if i < 0 then '-' :: padZeros (w - 1) (Nat.toDigits 10 i.natAbs)
  else padZeros w (Nat.toDigits 10 i.toNat)

/-- `IrisNativeAdapter._parse_fileman_date`: convert a FileMan date string to
an ISO date string; `""` (here `[]`) models the absent result. -/
def parse_fileman_date (s : PyStr) : PyStr :=
  if !(pyIsDigit s) then []
  else if 7 ≤ s.length then
    pyFormatNat 4 (1700 + digitsToNat (s.take 3)) ++
      '-' :: pyFormatNat 2 (digitsToNat ((s.drop 3).take 2)) ++
      '-' :: pyFormatNat 2 (digitsToNat ((s.drop 5).take 2))
  else []

/-- `IrisNativeAdapter._format_fileman_date`, applied to the ISO rendering of
the calendar date `(y, m, d)`; `datetime.fromisoformat` on a valid ISO date
yields back exactly these components, so the function is modelled directly on
them.  `dt.year - 1700` is formatted with `f"{_:03d}"`, which renders negative
or four-digit offsets at full width instead of failing. -/
def format_fileman_date (y m d : Nat) : PyStr :=
  pyFormatInt 3 ((y : Int) - 1700) ++ pyFormatNat 2 m ++ pyFormatNat 2 d

/-- The ISO rendering `f"{y:04d}-{m:02d}-{d:02d}"` of a calendar date. -/
def isoDate (y m d : Nat) : PyStr :=
  pyFormatNat 4 y ++ '-' :: pyFormatNat 2 m ++ '-' :: pyFormatNat 2 d

/-- What `_parse_fileman_date` produces on any all-digit input of length at
least 7: the 3/2/2 split formatted as an ISO string, with no range check on
month or day. -/
def decodedIso (s : PyStr) : PyStr :=
  pyFormatNat 4 (1700 + digitsToNat (s.take 3)) ++
    '-' :: pyFormatNat 2 (digitsToNat ((s.drop 3).take 2)) ++
    '-' :: pyFormatNat 2 (digitsToNat ((s.drop 5).take 2))

example : parse_fileman_date (pystr "2950115") = pystr "1995-01-15" := by decide

example : format_fileman_date 1995 1 15 = pystr "2950115" := by decide

/-! ## Store collation and traversal (backend primitives, modelled from §4.1/§4.2) -/

/-- Split a subscript at its first `'.'`. -/
def splitDot : PyStr → PyStr × Option PyStr
  | [] => ([], none)
  | c :: rest =>
    if c = '.' then ([], some rest)
    else
      let p := splitDot rest
      (c :: p.1, p.2)

/-- Integer part of a canonical numeric subscript: nonempty, all digits, no
leading zero (other than `"0"` itself). -/
def intPartOk (l : PyStr) : Bool :=
  !l.isEmpty && l.all isDigitCh && (decide (l = ['0']) || !(decide (l.head? = some '0')))

/-- Modelled from the spec (§4.1): a subscript is canonical-numeric if it
parses as a base-10 integer or decimal with no leading zeros (other than
`"0"`) and no leading sign. -/
def isCanonicalNum (s : PyStr) : Bool :=
  match splitDot s with
  | (i, none) => intPartOk i
  | (i, some f) => intPartOk i && !f.isEmpty && f.all isDigitCh

/-- Numeric value of a canonical numeric subscript, as a rational. -/
def numVal (s : PyStr) : ℚ :=
  match splitDot s with
  | (i, none) => (digitsToNat i : ℚ)
  | (i, some f) => (digitsToNat i : ℚ) + (digitsToNat f : ℚ) / (10 : ℚ) ^ f.length

/-- Byte-wise lexicographic strict order on strings. -/
def lexLt : PyStr → PyStr → Bool
  | [], [] => false
  | [], _ :: _ => true
  | _ :: _, [] => false
  | a :: s2, b :: t2 => if a < b then true else if a = b then lexLt s2 t2 else false

/-- Modelled from the spec (§4.1): the collation order of the store — all
canonical-numeric subscripts first, in ascending numeric value, then all
non-numeric subscripts in ascending byte-wise lexicographic order. -/
def mumpsLt (a b : PyStr) : Bool :=
  if isCanonicalNum a then
    if isCanonicalNum b then decide (numVal a < numVal b) else true
  else
    if isCanonicalNum b then false else lexLt a b

/-- A store address: global name followed by the subscript list. -/
abbrev GlobalPath := List PyStr

/-- The hierarchical sparse store: an association list from paths to values. -/
abbrev GlobalStore := List (GlobalPath × PyStr)

def storeGet : GlobalStore → GlobalPath → Option PyStr
  | [], _ => none
  | (q, v) :: rest, p => if q = p then some v else storeGet rest p

/-- If `q` lies strictly below `p`, the child subscript of `q` at level `p`. -/
def subAfter : GlobalPath → GlobalPath → Option PyStr
  | [], q => q.head?
  | _ :: _, [] => none
  | a :: p, b :: q => if a = b then subAfter p q else none

/-- All child subscripts present under `p` (possibly with repetitions). -/
def childrenAt (st : GlobalStore) (p : GlobalPath) : List PyStr :=
  st.filterMap (fun e => subAfter p e.1)

/-- Least element of a list under the collation order. -/
def minMumps : List PyStr → Option PyStr
  | [] => none
  | c :: cs => some (cs.foldl (fun m x => if mumpsLt x m then x else m) c)

/-- Modelled from the spec (§4.1/§4.2): "next subscript after `s`" — the
smallest candidate strictly greater than `s` in collation order, every
candidate when `s` is empty ("from the beginning"). -/
def orderSub (cs : List PyStr) (s : PyStr) : Option PyStr :=
  minMumps (cs.filter (fun c => s.isEmpty || mumpsLt s c))

/-- Modelled from the spec: the backend `order` primitive at path `p`. -/
def irisOrder (st : GlobalStore) (p : GlobalPath) (s : PyStr) : Option PyStr :=
  orderSub (childrenAt st p) s

/-- Modelled from the spec: the backend `isDefined` ($DATA) primitive —
truthy when the path holds a value or has descendants. -/
def irisIsDefined (st : GlobalStore) (p : GlobalPath) : Bool :=
  (storeGet st p).isSome || st.any (fun e => (subAfter p e.1).isSome)

/-- Well-formed store: no empty subscripts (the backend rejects them). -/
def wfStore (st : GlobalStore) : Bool :=
  st.all (fun e => e.1.all (fun s => !s.isEmpty))

/-! ## Error taxonomy and SDK session (filebot-python adapter) -/

/-- The two exception classes of `filebot.exceptions` that the adapter code
distinguishes (both subclasses of `Exception`). -/
inductive FBErr where
  | queryError : PyStr → FBErr
  | connectionError : PyStr → FBErr
deriving DecidableEq, Repr

/-- `str(e)`: the message carried by the exception. -/
def errMsg : FBErr → PyStr
  | .queryError m => m
  | .connectionError m => m

def connLostMsg : PyStr := pystr "connection lost"

/-- SDK `get` through the session: transport loss raises `ConnectionError`. -/
def sdkGet (conn : Bool) (st : GlobalStore) (p : GlobalPath) :
    Except FBErr (Option PyStr) :=
  if conn then .ok (storeGet st p) else .error (.connectionError connLostMsg)

/-- SDK `order` through the session. -/
def sdkOrder (conn : Bool) (st : GlobalStore) (p : GlobalPath) (s : PyStr) :
    Except FBErr (Option PyStr) :=
  if conn then .ok (irisOrder st p s) else .error (.connectionError connLostMsg)

/-- SDK `isDefined` through the session. -/
def sdkIsDefined (conn : Bool) (st : GlobalStore) (p : GlobalPath) :
    Except FBErr Bool :=
  if conn then .ok (irisIsDefined st p) else .error (.connectionError connLostMsg)

/-! ## Patient record and piece handling -/

/-- The `Patient` record of `filebot.models` (construction site
`IrisNativeAdapter.get_patient_demographics`; the class itself is outside
src/, its fields are those of the call site and of spec §3). -/
structure Patient where
  dfn : PyStr
  name : PyStr
  ssn : PyStr
  dob : PyStr
  sex : PyStr
  street : PyStr
  city : PyStr
  state : PyStr
  zip_code : PyStr
deriving DecidableEq, Repr

/-- Python `s.split("^")` (never returns an empty list; `"" ↦ [""]`). -/
def splitCaret : PyStr → List PyStr
  | [] => [[]]
  | c :: rest =>
    match splitCaret rest with
    | [] => [[]]
    | f :: fs => if c = '^' then [] :: f :: fs else (c :: f) :: fs

/-- `fields[i] if len(fields) > i else ""`. -/
def pieceAt (fs : List PyStr) (i : Nat) : PyStr := (fs.get? i).getD []

/-- Python `s.startswith(pre)`. -/
def startsWithL : PyStr → PyStr → Bool
  | _, [] => true
  | [], _ :: _ => false
  | a :: s2, b :: p2 => decide (a = b) && startsWithL s2 p2

/-- Python `needle in hay` (substring test). -/
def isSubstr (needle : PyStr) : PyStr → Bool
  | [] => needle.isEmpty
  | c :: t => startsWithL (c :: t) needle || isSubstr needle t

def gDPT : PyStr := pystr "^DPT"
def sub0 : PyStr := pystr "0"
def sub11 : PyStr := pystr ".11"
def subB : PyStr := pystr "B"

/-! ## `IrisNativeAdapter` patient operations (filebot-python) -/

/-- The `try` body of `IrisNativeAdapter.get_patient_demographics`. -/
def getDemographicsBody (conn : Bool) (st : GlobalStore) (dfn : PyStr) :
    Except FBErr Patient := do
  let deff ← sdkIsDefined conn st [gDPT, dfn, sub0]
  if !deff then
    throw (.queryError (pystr "Patient " ++ dfn ++ pystr " not found"))
  let node ← sdkGet conn st [gDPT, dfn, sub0]
  let nodeS := node.getD []
  if nodeS.isEmpty then
    throw (.queryError (pystr "Patient " ++ dfn ++ pystr " has no demographic data"))
  let fs := splitCaret nodeS
  let addr ← sdkGet conn st [gDPT, dfn, sub11]
  let afs := splitCaret (addr.getD [])
  pure {
    dfn := dfn
    name := pieceAt fs 0
    ssn := pieceAt fs 1
    dob := if 2 < fs.length then parse_fileman_date (pieceAt fs 2) else []
    sex := pieceAt fs 3
    street := pieceAt afs 0
    city := pieceAt afs 1
    state := pieceAt afs 2
    zip_code := pieceAt afs 3 }

/-- `IrisNativeAdapter.get_patient_demographics`: the `except` clause turns
every caught exception into a `QueryError` (preserving the message when it
contains "not found", else wrapping it). -/
def get_patient_demographics (conn : Bool) (st : GlobalStore) (dfn : PyStr) :
    Except FBErr Patient :=
  match getDemographicsBody conn st dfn with
  | .ok p => .ok p
  | .error e =>
    if isSubstr (pystr "not found") (errMsg e) then .error (.queryError (errMsg e))
    else .error (.queryError (pystr "Failed to get patient demographics: " ++ errMsg e))

/-- The `for` loop of `get_patients_batch`: per-item `QueryError` is skipped,
any other exception escapes the loop. -/
def batchLoop (conn : Bool) (st : GlobalStore) : List PyStr → Except FBErr (List Patient)
  | [] => .ok []
  | d :: ds =>
    match get_patient_demographics conn st d with
    | .ok p => (batchLoop conn st ds).map (p :: ·)
    | .error (.queryError _) => batchLoop conn st ds
    | .error e => .error e

/-- `IrisNativeAdapter.get_patients_batch`: the outer `except` wraps any
escaping exception as a `QueryError`. -/
def get_patients_batch (conn : Bool) (st : GlobalStore) (dfns : List PyStr) :
    Except FBErr (List Patient) :=
  match batchLoop conn st dfns with
  | .ok ps => .ok ps
  | .error e => .error (.queryError (pystr "Failed to get patients batch: " ++ errMsg e))

/-- The `while` loop of `_get_next_dfn`: follow `order` to the last top-level
subscript.  `fuel` bounds the recursion; the source loop terminates because
`order` is strictly increasing and `st.length + 1` steps always suffice. -/
def lastSubLoop (st : GlobalStore) : PyStr → Nat → PyStr
  | cur, 0 => cur
  | cur, fuel + 1 =>
    match irisOrder st [gDPT] cur with
    | none => cur
    | some nxt => lastSubLoop st nxt fuel

/-- `IrisNativeAdapter._get_next_dfn`.  `none` models the exception path (on
an empty global the second `order` call receives `None` and raises, falling
back to a timestamp-derived identifier, which is time-dependent). -/
def get_next_dfn (st : GlobalStore) : Option Nat :=
  match irisOrder st [gDPT] [] with
  | none => none
  | some first =>
    let last := lastSubLoop st first (st.length + 1)
    some (if !last.isEmpty && pyIsDigit last then digitsToNat last + 1 else 1)

/-- Python `str.upper` on an ASCII character. -/
def upperCh (c : Char) : Char :=
  if 'a' ≤ c ∧ c ≤ 'z' then Char.ofNat (c.toNat - 32) else c

/-- `name_pattern.upper().replace("*", "")`. -/
def foldPattern (p : PyStr) : PyStr := (p.map upperCh).filter (fun c => c ≠ '*')

/-- The inner `while True` loop of `search_patients_by_name`: walk the DFNs
registered under the index key `nm`, appending each decodable patient, and
stop once the count reaches 50.  Per-item `QueryError` is skipped. -/
def searchDfnLoop (conn : Bool) (st : GlobalStore) (nm : PyStr) (dfn : PyStr)
    (acc : List Patient) (count : Nat) : Nat → Except FBErr (List Patient × Nat)
  | 0 => .ok (acc, count)
  | fuel + 1 =>
    match sdkOrder conn st [gDPT, subB, nm] dfn with
    | .error e => .error e
    | .ok none => .ok (acc, count)
    | .ok (some d) =>
      match get_patient_demographics conn st d with
      | .ok p =>
        if count + 1 ≥ 50 then .ok (acc ++ [p], count + 1)
        else searchDfnLoop conn st nm d (acc ++ [p]) (count + 1) fuel
      | .error (.queryError _) => searchDfnLoop conn st nm d acc count fuel
      | .error e => .error e

/-- The outer `while` loop of `search_patients_by_name`: walk the name-index
keys while they keep the search prefix and fewer than 50 results exist. -/
def searchNameLoop (conn : Bool) (st : GlobalStore) (pat : PyStr)
    (cur : Option PyStr) (acc : List Patient) (count : Nat) :
    Nat → Except FBErr (List Patient)
  | 0 => .ok acc
  | fuel + 1 =>
    match cur with
    | none => .ok acc
    | some nm =>
      if !nm.isEmpty && startsWithL nm pat && count < 50 then
        match searchDfnLoop conn st nm [] acc count (st.length + 1) with
        | .error e => .error e
        | .ok (acc2, cnt2) =>
          match sdkOrder conn st [gDPT, subB] nm with
          | .error e => .error e
          | .ok nxt => searchNameLoop conn st pat nxt acc2 cnt2 fuel
      else .ok acc

/-- The `try` body of `IrisNativeAdapter.search_patients_by_name`: fold the
pattern, issue the initial `order(pattern)` call, then run the outer walk. -/
def searchBody (conn : Bool) (st : GlobalStore) (raw : PyStr) :
    Except FBErr (List Patient) :=
  match sdkOrder conn st [gDPT, subB] (foldPattern raw) with
  | .error e => .error e
  | .ok cur0 => searchNameLoop conn st (foldPattern raw) cur0 [] 0 (st.length + 1)

/-- `IrisNativeAdapter.search_patients_by_name`. -/
def search_patients_by_name (conn : Bool) (st : GlobalStore) (raw : PyStr) :
    Except FBErr (List Patient) :=
  match searchBody conn st raw with
  | .ok ps => .ok ps
  | .error e => .error (.queryError (pystr "Failed to search patients: " ++ errMsg e))

/-! ## `MockAdapter` and `AdapterRegistry` (src/python/base_adapter.py) -/

/-- `BaseAdapter._normalize_global_name`: prefix with `'^'` unless already
present (the empty name raises `ValueError`; no claim exercises it). -/
def normalize_global_name (g : PyStr) : PyStr :=
  match g with
  | [] => []
  | c :: rest => if c = '^' then c :: rest else '^' :: c :: rest

/-- Python `",".join(subs)`. -/
def joinComma : List PyStr → PyStr
  | [] => []
  | [s] => s
  | s :: rest => s ++ ',' :: joinComma rest

/-- `MockAdapter._build_key`. -/
def build_key (g : PyStr) (subs : List PyStr) : PyStr :=
  let n := normalize_global_name g
  if subs.isEmpty then n else n ++ '(' :: joinComma subs ++ [')']

/-- The mock adapter's backing dict, insertion-ordered like a Python dict. -/
abbrev MockData := List (PyStr × PyStr)

/-- Python `data[key] = value` (replaces in place, else appends). -/
def dictSet : MockData → PyStr → PyStr → MockData
  | [], k, v => [(k, v)]
  | (k0, v0) :: rest, k, v =>
    if k0 = k then (k0, v) :: rest else (k0, v0) :: dictSet rest k v

/-- Python `data.pop(key, None)`'s effect on the dict. -/
def dictPop : MockData → PyStr → MockData
  | [], _ => []
  | (k0, v0) :: rest, k => if k0 = k then rest else (k0, v0) :: dictPop rest k

/-- Python `data.get(key)`. -/
def dictGet : MockData → PyStr → Option PyStr
  | [], _ => none
  | (k0, v0) :: rest, k => if k0 = k then some v0 else dictGet rest k

/-- `MockAdapter.set_global`: a truthy value is stored, a falsy (empty) value
pops the key. -/
def mock_set_global (data : MockData) (value : PyStr) (g : PyStr)
    (subs : List PyStr) : MockData :=
  let key := build_key g subs
  if !value.isEmpty then dictSet data key value else dictPop data key

/-- `MockAdapter.get_global`. -/
def mock_get_global (data : MockData) (g : PyStr) (subs : List PyStr) : Option PyStr :=
  dictGet data (build_key g subs)

/-- `MockAdapter.order_global`: first stored full key extending the built key
prefix, in dict insertion order. -/
def mock_order_global (data : MockData) (g : PyStr) (subs : List PyStr) : Option PyStr :=
  let pre := build_key g subs
  ((data.map Prod.fst).filter (fun k => startsWithL k pre)).head?

/-- The value-translation step of `IRISNativeAdapter.get_global`
(src/python/adapters/iris_native_adapter.py): the raw Native-API result
(`none` = undefined node) is returned only when different from `""`. -/
def iris_get_global_result (raw : Option PyStr) : Option PyStr :=
  match raw with
  | some v => if v.isEmpty then none else some v
  | none => none

/-- One registered descriptor of `AdapterRegistry` (the stored dict entry;
the class object is modelled by its name). -/
structure AdapterInfo where
  klass : PyStr
  descr : PyStr
  version : PyStr
  priority : Int
  auto_detect : Bool
deriving DecidableEq, Repr

/-- The registry's name-to-descriptor dict, insertion-ordered. -/
abbrev Registry := List (PyStr × AdapterInfo)

/-- `AdapterRegistry.register_adapter`: Python dict assignment — replaces in
place under an existing name, else appends. -/
def register_adapter : Registry → PyStr → AdapterInfo → Registry
  | [], nm, info => [(nm, info)]
  | (n, i) :: rest, nm, info =>
    if n = nm then (nm, info) :: rest else (n, i) :: register_adapter rest nm info

/-- The descriptors kept by `_auto_detect_adapter`'s comprehension: those with
`auto_detect` set, in registration order. -/
def autoCandidates (reg : Registry) : Registry := reg.filter (fun e => e.2.auto_detect)

/-- One insertion step of a stable sort by descending priority — the
documented semantics of Python's stable `list.sort(key=priority,
reverse=True)`. -/
def insertByPrio (x : PyStr × AdapterInfo) : Registry → Registry
  | [] => [x]
  | y :: ys => if y.2.priority > x.2.priority then y :: insertByPrio x ys else x :: y :: ys

/-- Stable sort by descending priority. -/
def sortByPrioDesc : Registry → Registry
  | [] => []
  | x :: xs => insertByPrio x (sortByPrioDesc xs)

def noAdapterMsg : PyStr := pystr "No adapters available for auto-detection"

/-- `AdapterRegistry._auto_detect_adapter`: keep the `auto_detect`-marked
descriptors, raise if none, else sort by priority (highest first, stable) and
return the first name. -/
def auto_detect_adapter (reg : Registry) : Except PyStr PyStr :=
  let avail := autoCandidates reg
  if avail.isEmpty then .error noAdapterMsg
  else
    match sortByPrioDesc avail with
    | [] => .error noAdapterMsg
    | x :: _ => .ok x.1

/-! ## Theorems: FileMan date codec (C4, C5, C6) -/

theorem fmt3_spec : ∀ n < 1000, (pyFormatNat 3 n).length = 3 ∧
    (pyFormatNat 3 n).all isDigitCh = true ∧ digitsToNat (pyFormatNat 3 n) = n := by
  decide

theorem fmt2_spec : ∀ n < 100, (pyFormatNat 2 n).length = 2 ∧
    (pyFormatNat 2 n).all isDigitCh = true ∧ digitsToNat (pyFormatNat 2 n) = n := by
  decide

theorem pyFormatInt_1700 (w y : Nat) (h1 : 1700 ≤ y) :
    pyFormatInt w ((y : Int) - 1700) = pyFormatNat w (y - 1700) := by
  have hc : ¬ ((y : Int) - 1700 < 0) := by omega
  have ht : ((y : Int) - 1700).toNat = y - 1700 := by omega
  unfold pyFormatInt pyFormatNat
  rw [if_neg hc, ht]

theorem pyFormatInt_ne_nil (w : Nat) (hw : 0 < w) (i : Int) : pyFormatInt w i ≠ [] := by
  unfold pyFormatInt
  split
  · simp
  · unfold padZeros
    intro h
    have hlen := congrArg List.length h
    simp only [List.length_append, List.length_replicate, List.length_nil] at hlen
    omega

theorem isEmpty_false_of_length (l : PyStr) (n : Nat) (h : l.length = n) (hn : n ≠ 0) :
    l.isEmpty = false := by
  cases l with
  | nil => simp at h; omega
  | cons a t => rfl

/-- C6: for every valid calendar date with year in [1700, 2699], decoding the
FileMan encoding of the date yields the date again (as its ISO rendering,
which is what `_parse_fileman_date` returns and what `datetime.fromisoformat`
re-parses back to the same date). -/
theorem c6_decode_encode_roundtrip (y m d : Nat) (hy1 : 1700 ≤ y) (hy2 : y ≤ 2699)
    (hm1 : 1 ≤ m) (hm2 : m ≤ 12) (hd1 : 1 ≤ d) (hd2 : d ≤ 31) :
    parse_fileman_date (format_fileman_date y m d) = isoDate y m d := by
  obtain ⟨hA1, hA2, hA3⟩ := fmt3_spec (y - 1700) (by omega)
  obtain ⟨hB1, hB2, hB3⟩ := fmt2_spec m (by omega)
  obtain ⟨hC1, hC2, hC3⟩ := fmt2_spec d (by omega)
  have hfmt : format_fileman_date y m d =
      pyFormatNat 3 (y - 1700) ++ (pyFormatNat 2 m ++ pyFormatNat 2 d) := by
    have h0 : format_fileman_date y m d =
        pyFormatInt 3 ((y : Int) - 1700) ++ pyFormatNat 2 m ++ pyFormatNat 2 d := rfl
    rw [h0, pyFormatInt_1700 3 y hy1, List.append_assoc]
  rw [hfmt]
  have hlen : (pyFormatNat 3 (y - 1700) ++ (pyFormatNat 2 m ++ pyFormatNat 2 d)).length = 7 := by
    simp only [List.length_append, hA1, hB1, hC1]
  have hdig : pyIsDigit (pyFormatNat 3 (y - 1700) ++ (pyFormatNat 2 m ++ pyFormatNat 2 d)) = true := by
    unfold pyIsDigit
    rw [isEmpty_false_of_length _ 7 hlen (by omega)]
    simp only [List.all_append, hA2, hB2, hC2, Bool.not_false, Bool.and_self]
  have htake3 : (pyFormatNat 3 (y - 1700) ++ (pyFormatNat 2 m ++ pyFormatNat 2 d)).take 3 =
      pyFormatNat 3 (y - 1700) := List.take_left' hA1
  have hdrop3 : (pyFormatNat 3 (y - 1700) ++ (pyFormatNat 2 m ++ pyFormatNat 2 d)).drop 3 =
      pyFormatNat 2 m ++ pyFormatNat 2 d := List.drop_left' hA1
  have hdrop5 : (pyFormatNat 3 (y - 1700) ++ (pyFormatNat 2 m ++ pyFormatNat 2 d)).drop 5 =
      pyFormatNat 2 d := by
    rw [show pyFormatNat 3 (y - 1700) ++ (pyFormatNat 2 m ++ pyFormatNat 2 d) =
        (pyFormatNat 3 (y - 1700) ++ pyFormatNat 2 m) ++ pyFormatNat 2 d from
      (List.append_assoc _ _ _).symm]
    exact List.drop_left' (by simp only [List.length_append, hA1, hB1])
  have htakeB : (pyFormatNat 2 m ++ pyFormatNat 2 d).take 2 = pyFormatNat 2 m :=
    List.take_left' hB1
  have htakeC : (pyFormatNat 2 d).take 2 = pyFormatNat 2 d :=
    List.take_of_length_le (le_of_eq hC1)
  unfold parse_fileman_date
  rw [hdig, hlen]
  simp only [Bool.not_true, Bool.false_eq_true, if_false, Nat.le_refl, if_true,
    le_refl, ite_true, ite_false]
  rw [htake3, hdrop3, htakeB, hdrop5, htakeC, hA3, hB3, hC3,
    show 1700 + (y - 1700) = y from by omega]
  rfl

theorem c6_roundtrip_witness :
    parse_fileman_date (format_fileman_date 1995 1 15) = isoDate 1995 1 15 :=
  c6_decode_encode_roundtrip 1995 1 15 (by decide) (by decide) (by decide)
    (by decide) (by decide) (by decide)

/-- C4 counterexample: `"2951315"` has month 13, out of calendar range, yet
`_parse_fileman_date` returns the non-absent string `"1995-13-15"` — the
claim that an out-of-range month never yields a non-absent decode is false. -/
theorem c4_counterexample :
    parse_fileman_date (pystr "2951315") = pystr "1995-13-15" ∧
    parse_fileman_date (pystr "2951315") ≠ [] := by decide

/-- C4 amended: decode returns absent (and never raises) when the input is
not all digits or shorter than 7 characters; but it performs no month/day
range check — every all-digit input of length ≥ 7 decodes to the formatted
3/2/2 components. -/
theorem c4_amended :
    (∀ s : PyStr, pyIsDigit s = false → parse_fileman_date s = []) ∧
    (∀ s : PyStr, s.length < 7 → parse_fileman_date s = []) ∧
    (∀ s : PyStr, pyIsDigit s = true → 7 ≤ s.length → parse_fileman_date s = decodedIso s) := by
  refine ⟨fun s h => ?_, fun s h => ?_, fun s h1 h2 => ?_⟩
  · unfold parse_fileman_date
    rw [h]
    rfl
  · unfold parse_fileman_date
    cases hd : pyIsDigit s with
    | false => rfl
    | true =>
      simp only [Bool.not_true, Bool.false_eq_true, if_false]
      rw [if_neg (by omega)]
  · unfold parse_fileman_date decodedIso
    rw [h1]
    simp only [Bool.not_true, Bool.false_eq_true, if_false]
    rw [if_pos h2]

theorem c4_amended_witness :
    pyIsDigit (pystr "2951315") = true ∧ 7 ≤ (pystr "2951315").length ∧
    parse_fileman_date (pystr "2951315") = decodedIso (pystr "2951315") :=
  ⟨by decide, by decide, c4_amended.2.2 (pystr "2951315") (by decide) (by decide)⟩

/-- C5 counterexample: for years outside [1700, 2699] the encoder does not
fail closed: 1600-01-01 encodes to `"-1000101"` and 2800-01-01 to
`"11000101"`, both nonempty, contradicting the claimed empty-string result. -/
theorem c5_counterexample :
    format_fileman_date 1600 1 1 = pystr "-1000101" ∧
    format_fileman_date 1600 1 1 ≠ [] ∧
    format_fileman_date 2800 1 1 = pystr "11000101" ∧
    format_fileman_date 2800 1 1 ≠ [] := by decide

/-- C5 amended: for years in [1700, 2699] the encoder returns the
concatenation of the 3-digit year offset, 2-digit month and 2-digit day; for
any other year it still returns a nonempty string (the offset is rendered at
natural width, with a sign when negative) — it never returns the empty
string on a calendar date. -/
theorem c5_amended :
    (∀ y m d : Nat, 1700 ≤ y → y ≤ 2699 →
      format_fileman_date y m d =
        pyFormatNat 3 (y - 1700) ++ pyFormatNat 2 m ++ pyFormatNat 2 d) ∧
    (∀ y m d : Nat, format_fileman_date y m d ≠ []) := by
  constructor
  · intro y m d h1 h2
    have h0 : format_fileman_date y m d =
        pyFormatInt 3 ((y : Int) - 1700) ++ pyFormatNat 2 m ++ pyFormatNat 2 d := rfl
    rw [h0, pyFormatInt_1700 3 y h1]
  · intro y m d h
    have h0 : format_fileman_date y m d =
        pyFormatInt 3 ((y : Int) - 1700) ++ pyFormatNat 2 m ++ pyFormatNat 2 d := rfl
    rw [h0] at h
    exact pyFormatInt_ne_nil 3 (by omega) ((y : Int) - 1700)
      (List.append_eq_nil.mp (List.append_eq_nil.mp h).1).1

theorem c5_amended_witness :
    (1700 ≤ 1995 ∧ 1995 ≤ 2699) ∧
    format_fileman_date 1995 1 15 =
      pyFormatNat 3 (1995 - 1700) ++ pyFormatNat 2 1 ++ pyFormatNat 2 15 :=
  ⟨⟨by decide, by decide⟩, c5_amended.1 1995 1 15 (by decide) (by decide)⟩

/-! ## Theorems: MockAdapter set/get/order and registry (C3, C8, C9) -/

theorem dictGet_dictSet (d : MockData) (k v : PyStr) :
    dictGet (dictSet d k v) k = some v := by
  induction d with
  | nil => simp [dictSet, dictGet]
  | cons e rest ih =>
    obtain ⟨k0, v0⟩ := e
    unfold dictSet
    by_cases h : k0 = k
    · rw [if_pos h]; unfold dictGet; rw [if_pos h]
    · rw [if_neg h]; unfold dictGet; rw [if_neg h]; exact ih

theorem dictGet_eq_none (d : MockData) (k : PyStr) (h : k ∉ d.map Prod.fst) :
    dictGet d k = none := by
  induction d with
  | nil => rfl
  | cons e rest ih =>
    simp only [List.map_cons, List.mem_cons, not_or] at h
    unfold dictGet
    rw [if_neg (fun he => h.1 he.symm)]
    exact ih h.2

theorem dictGet_dictPop (d : MockData) (k : PyStr) (h : (d.map Prod.fst).Nodup) :
    dictGet (dictPop d k) k = none := by
  induction d with
  | nil => rfl
  | cons e rest ih =>
    obtain ⟨k0, v0⟩ := e
    simp only [List.map_cons, List.nodup_cons] at h
    unfold dictPop
    by_cases hk : k0 = k
    · rw [if_pos hk]
      exact dictGet_eq_none rest k (hk ▸ h.1)
    · rw [if_neg hk]; unfold dictGet; rw [if_neg hk]
      exact ih h.2

def mockT0 : MockData := mock_set_global [] (pystr "v") (pystr "^T") [pystr "X"]

/-- C3 counterexample: in `MockAdapter`, after storing `"v"` at `^T("X")`,
`set_global("", "^T", "X")` pops the key, so the subsequent get observes
absence — not a present empty value as the claim states. -/
theorem c3_counterexample :
    mock_get_global mockT0 (pystr "^T") [pystr "X"] = some (pystr "v") ∧
    mock_get_global (mock_set_global mockT0 [] (pystr "^T") [pystr "X"])
      (pystr "^T") [pystr "X"] = none := by decide

/-- C3 amended: storing a nonempty value makes it readable, but storing the
empty value deletes the node: `MockAdapter.set_global` pops the key on a
falsy value, so a subsequent get observes absence; and the companion
`IRISNativeAdapter.get_global` maps an empty raw value to absent as well. -/
theorem c3_amended :
    (∀ (data : MockData) (g : PyStr) (subs : List PyStr) (v : PyStr), v ≠ [] →
      mock_get_global (mock_set_global data v g subs) g subs = some v) ∧
    (∀ (data : MockData) (g : PyStr) (subs : List PyStr),
      (data.map Prod.fst).Nodup →
      mock_get_global (mock_set_global data [] g subs) g subs = none) ∧
    iris_get_global_result (some []) = none := by
  refine ⟨?_, ?_, rfl⟩
  · intro data g subs v hv
    have hve : v.isEmpty = false := by
      cases v with
      | nil => exact absurd rfl hv
      | cons a t => rfl
    unfold mock_set_global mock_get_global
    rw [hve]
    exact dictGet_dictSet data (build_key g subs) v
  · intro data g subs h
    unfold mock_set_global mock_get_global
    exact dictGet_dictPop data (build_key g subs) h

theorem c3_amended_witness :
    (pystr "v" ≠ [] ∧
      mock_get_global (mock_set_global [] (pystr "v") (pystr "^T") [pystr "X"])
        (pystr "^T") [pystr "X"] = some (pystr "v")) ∧
    ((mockT0.map Prod.fst).Nodup ∧
      mock_get_global (mock_set_global mockT0 [] (pystr "^T") [pystr "X"])
        (pystr "^T") [pystr "X"] = none) :=
  ⟨⟨by decide, c3_amended.1 [] (pystr "^T") [pystr "X"] (pystr "v") (by decide)⟩,
   ⟨by decide, c3_amended.2.1 mockT0 (pystr "^T") [pystr "X"] (by decide)⟩⟩

def mockG : MockData :=
  mock_set_global (mock_set_global (mock_set_global (mock_set_global []
    (pystr "a") (pystr "^G") [pystr "1"])
    (pystr "b") (pystr "^G") [pystr "2"])
    (pystr "c") (pystr "^G") [pystr "10"])
    (pystr "d") (pystr "^G") [pystr "A"]

/-- C8 (bug evidence): with children {1, 2, 10, "A"} stored under `^G`, the
mock `order_global` called from the empty subscript returns `None`
immediately (the built prefix `"^G()"` matches no stored key); called
without a position argument it returns the full key string `"^G(1)"`, not
the subscript `"1"`; and called at position "1" it again returns `"^G(1)"`
— it never advances and never produces the collation sequence
1, 2, 10, "A", absent. -/
theorem c8_eval :
    mock_order_global mockG (pystr "^G") [pystr ""] = none ∧
    mock_order_global mockG (pystr "^G") [] = some (pystr "^G(1)") ∧
    mock_order_global mockG (pystr "^G") [pystr "1"] = some (pystr "^G(1)") := by
  decide

theorem insertByPrio_head (x y : PyStr × AdapterInfo) (ys : Registry) :
    (insertByPrio x (y :: ys)).head? =
      some (if y.2.priority > x.2.priority then y else x) := by
  unfold insertByPrio
  by_cases h : y.2.priority > x.2.priority
  · rw [if_pos h, if_pos h]; rfl
  · rw [if_neg h, if_neg h]; rfl

theorem sortDesc_head_spec : ∀ (l : Registry), l ≠ [] →
    ∃ pre e suf, l = pre ++ e :: suf ∧
      (sortByPrioDesc l).head? = some e ∧
      (∀ f ∈ pre, f.2.priority < e.2.priority) ∧
      (∀ f ∈ l, f.2.priority ≤ e.2.priority) := by
  intro l
  induction l with
  | nil => intro h; exact absurd rfl h
  | cons x xs ih =>
    intro _
    by_cases hxs : xs = []
    · subst hxs
      exact ⟨[], x, [], rfl, rfl, by simp, by simp⟩
    · obtain ⟨pre, e, suf, hdec, hhead, hpre, hmax⟩ := ih hxs
      have hsx : sortByPrioDesc (x :: xs) = insertByPrio x (sortByPrioDesc xs) := rfl
      cases hs : sortByPrioDesc xs with
      | nil => rw [hs] at hhead; simp at hhead
      | cons y ys =>
        rw [hs] at hhead
        have hye : y = e := by simpa using hhead
        rw [← hye] at hdec hpre hmax
        by_cases hgt : y.2.priority > x.2.priority
        · refine ⟨x :: pre, y, suf, by rw [hdec]; rfl, ?_, ?_, ?_⟩
          · rw [hsx, hs, insertByPrio_head, if_pos hgt]
          · intro f hf
            rcases List.mem_cons.mp hf with rfl | hf2
            · exact hgt
            · exact hpre f hf2
          · intro f hf
            rcases List.mem_cons.mp hf with rfl | hf2
            · exact le_of_lt hgt
            · exact hmax f hf2
        · refine ⟨[], x, xs, rfl, ?_, by simp, ?_⟩
          · rw [hsx, hs, insertByPrio_head, if_neg hgt]
          · intro f hf
            rcases List.mem_cons.mp hf with rfl | hf2
            · exact le_refl _
            · exact (hmax f hf2).trans (not_lt.mp hgt)

/-- C9: `_auto_detect_adapter` keeps exactly the descriptors marked for
auto-detection (the code's availability marking — there is no separate
availability predicate), selects among them one with the highest priority
value, breaking ties in favour of the first-registered descriptor, and
fails with the no-adapter-available error when that set is empty. -/
theorem c9_auto_detect_spec (reg : Registry) :
    (autoCandidates reg = [] → auto_detect_adapter reg = .error noAdapterMsg) ∧
    (autoCandidates reg ≠ [] →
      ∃ pre e suf, autoCandidates reg = pre ++ e :: suf ∧
        auto_detect_adapter reg = .ok e.1 ∧
        (∀ f ∈ pre, f.2.priority < e.2.priority) ∧
        (∀ f ∈ autoCandidates reg, f.2.priority ≤ e.2.priority)) := by
  constructor
  · intro h
    unfold auto_detect_adapter
    rw [h]
    rfl
  · intro h
    obtain ⟨pre, e, suf, hdec, hhead, hpre, hmax⟩ := sortDesc_head_spec (autoCandidates reg) h
    refine ⟨pre, e, suf, hdec, ?_, hpre, hmax⟩
    have hne : (autoCandidates reg).isEmpty = false := by
      cases hq : autoCandidates reg with
      | nil => exact absurd hq h
      | cons a t => rfl
    unfold auto_detect_adapter
    simp only [hne, Bool.false_eq_true, if_false]
    cases hs : sortByPrioDesc (autoCandidates reg) with
    | nil => rw [hs] at hhead; simp at hhead
    | cons y ys =>
      rw [hs] at hhead
      have hye : y = e := by simpa using hhead
      rw [hye]

def regAC : Registry :=
  register_adapter (register_adapter []
    (pystr "a") ⟨pystr "AAdapter", [], [], 10, true⟩)
    (pystr "c") ⟨pystr "CAdapter", [], [], 100, true⟩

example : auto_detect_adapter regAC = .ok (pystr "c") := rfl

theorem c9_auto_detect_witness :
    autoCandidates regAC ≠ [] ∧
    (∃ pre e suf, autoCandidates regAC = pre ++ e :: suf ∧
      auto_detect_adapter regAC = .ok e.1 ∧
      (∀ f ∈ pre, f.2.priority < e.2.priority) ∧
      (∀ f ∈ autoCandidates regAC, f.2.priority ≤ e.2.priority)) :=
  ⟨by decide, (c9_auto_detect_spec regAC).2 (by decide)⟩

/-! ## Theorems: DFN allocation (C1) and batch error handling (C2) -/

def stC1 : GlobalStore :=
  [([gDPT, pystr "1", sub0], pystr "ADAMS,AL^111^2950101^M"),
   ([gDPT, pystr "2", sub0], pystr "BAKER,BO^222^2950202^F"),
   ([gDPT, pystr "3", sub0], pystr "CLARK,CY^333^2950303^M"),
   ([gDPT, subB, pystr "ADAMS,AL", pystr "1"], []),
   ([gDPT, subB, pystr "BAKER,BO", pystr "2"], []),
   ([gDPT, subB, pystr "CLARK,CY", pystr "3"], [])]

/-- C1 (bug evidence): on a store whose top-level `^DPT` subscripts are the
numeric DFNs 1, 2, 3 plus the non-numeric `"B"` name index, the scan of
`_get_next_dfn` follows `order` to the last subscript in collation order —
which is `"B"`, not the maximum numeric DFN — fails `isdigit`, and allocates
DFN 1, which is not strictly greater than the existing numeric DFNs
(`create_patient` would then overwrite patient 1), instead of the expected
4. -/
theorem c1_next_dfn_eval :
    childrenAt stC1 [gDPT] = [pystr "1", pystr "2", pystr "3", subB, subB, subB] ∧
    lastSubLoop stC1 (pystr "1") (stC1.length + 1) = subB ∧
    get_next_dfn stC1 = some 1 := by decide

theorem demographics_never_conn_error (conn : Bool) (st : GlobalStore) (dfn : PyStr) :
    ∀ msg, get_patient_demographics conn st dfn ≠ .error (.connectionError msg) := by
  intro msg
  unfold get_patient_demographics
  cases getDemographicsBody conn st dfn with
  | ok p => simp
  | error e =>
    by_cases h : isSubstr (pystr "not found") (errMsg e) = true
    · simp [h]
    · simp [h]

def stP1 : GlobalStore := [([gDPT, pystr "1", sub0], pystr "ADAMS,AL^111^2950101^M")]

/-- C2 counterexample: with the session lost, the individual lookup hits the
connection error but `get_patient_demographics` converts it to a
`QueryError`, so the batch swallows it and returns an `ok` empty partial
result — no `ConnectionError` is propagated to the caller. -/
theorem c2_counterexample :
    get_patient_demographics false stP1 (pystr "1") =
      .error (.queryError (pystr "Failed to get patient demographics: connection lost")) ∧
    get_patients_batch false stP1 [pystr "1"] = .ok [] :=
  ⟨rfl, rfl⟩

/-- C2 amended: the batch lookup always returns `ok` with the decoded
records of exactly those DFNs whose individual lookup succeeds, silently
omitting every failing id — including ids whose failure originates in
transport loss, because `get_patient_demographics` rewraps every caught
exception (its own `QueryError`s and the SDK's `ConnectionError`s alike) as
a `QueryError`, which the batch loop then skips. -/
theorem c2_amended (conn : Bool) (st : GlobalStore) (dfns : List PyStr) :
    get_patients_batch conn st dfns =
      .ok (dfns.filterMap (fun d => (get_patient_demographics conn st d).toOption)) := by
  have hloop : batchLoop conn st dfns =
      .ok (dfns.filterMap (fun d => (get_patient_demographics conn st d).toOption)) := by
    induction dfns with
    | nil => rfl
    | cons d ds ih =>
      unfold batchLoop
      cases hd : get_patient_demographics conn st d with
      | ok p =>
        rw [ih]
        simp only [List.filterMap_cons, hd, Except.toOption, Except.map]
      | error e =>
        cases e with
        | queryError m =>
          rw [ih]
          simp only [List.filterMap_cons, hd, Except.toOption]
        | connectionError m =>
          exact absurd hd (demographics_never_conn_error conn st d m)
  unfold get_patients_batch
  rw [hloop]

/-! ## Theorems: name-index search (C7, C10) -/

theorem lexLt_cons (x y : Char) (xs ys : PyStr) :
    lexLt (x :: xs) (y :: ys) = true ↔ (x < y ∨ (x = y ∧ lexLt xs ys = true)) := by
  have he : lexLt (x :: xs) (y :: ys) =
      if x < y then true else if x = y then lexLt xs ys else false := rfl
  rw [he]
  by_cases h1 : x < y
  · simp [h1]
  · by_cases h2 : x = y
    · simp [h1, h2]
    · simp [h1, h2]

theorem lexLt_irrefl : ∀ (l : PyStr), lexLt l l = false := by
  intro l
  induction l with
  | nil => rfl
  | cons a t ih =>
    unfold lexLt
    rw [if_neg (lt_irrefl a), if_pos rfl]
    exact ih

theorem lexLt_trans : ∀ (a b c : PyStr), lexLt a b = true → lexLt b c = true →
    lexLt a c = true := by
  intro a
  induction a with
  | nil =>
    intro b c hab hbc
    cases b with
    | nil => exact hbc
    | cons y ys =>
      cases c with
      | nil => simp [lexLt] at hbc
      | cons z zs => rfl
  | cons x xs ih =>
    intro b c hab hbc
    cases b with
    | nil => simp [lexLt] at hab
    | cons y ys =>
      cases c with
      | nil => simp [lexLt] at hbc
      | cons z zs =>
        rcases (lexLt_cons x y xs ys).mp hab with h1 | ⟨he1, h1⟩
        · rcases (lexLt_cons y z ys zs).mp hbc with h2 | ⟨he2, h2⟩
          · exact (lexLt_cons x z xs zs).mpr (Or.inl (lt_trans h1 h2))
          · exact (lexLt_cons x z xs zs).mpr (Or.inl (he2 ▸ h1))
        · rcases (lexLt_cons y z ys zs).mp hbc with h2 | ⟨he2, h2⟩
          · exact (lexLt_cons x z xs zs).mpr (Or.inl (he1 ▸ h2))
          · exact (lexLt_cons x z xs zs).mpr (Or.inr ⟨he1.trans he2, ih ys zs h1 h2⟩)

theorem mumpsLt_irrefl (a : PyStr) : mumpsLt a a = false := by
  unfold mumpsLt
  by_cases h : isCanonicalNum a = true
  · simp [h]
  · simp [h, lexLt_irrefl]

theorem mumpsLt_eq_num_num (a b : PyStr) (ha : isCanonicalNum a = true)
    (hb : isCanonicalNum b = true) :
    mumpsLt a b = decide (numVal a < numVal b) := by
  unfold mumpsLt
  rw [ha, hb]
  simp

theorem mumpsLt_eq_num_str (a b : PyStr) (ha : isCanonicalNum a = true)
    (hb : isCanonicalNum b = false) : mumpsLt a b = true := by
  unfold mumpsLt
  rw [ha, hb]
  simp

theorem mumpsLt_eq_str_num (a b : PyStr) (ha : isCanonicalNum a = false)
    (hb : isCanonicalNum b = true) : mumpsLt a b = false := by
  unfold mumpsLt
  rw [ha, hb]
  simp

theorem mumpsLt_eq_str_str (a b : PyStr) (ha : isCanonicalNum a = false)
    (hb : isCanonicalNum b = false) : mumpsLt a b = lexLt a b := by
  unfold mumpsLt
  rw [ha, hb]
  simp

theorem mumpsLt_trans (a b c : PyStr) (h1 : mumpsLt a b = true) (h2 : mumpsLt b c = true) :
    mumpsLt a c = true := by
  cases ha : isCanonicalNum a with
  | true =>
    cases hc : isCanonicalNum c with
    | true =>
      cases hb : isCanonicalNum b with
      | true =>
        rw [mumpsLt_eq_num_num a b ha hb, decide_eq_true_eq] at h1
        rw [mumpsLt_eq_num_num b c hb hc, decide_eq_true_eq] at h2
        rw [mumpsLt_eq_num_num a c ha hc, decide_eq_true_eq]
        exact lt_trans h1 h2
      | false =>
        rw [mumpsLt_eq_str_num b c hb hc] at h2
        exact absurd h2 (by simp)
    | false => exact mumpsLt_eq_num_str a c ha hc
  | false =>
    cases hb : isCanonicalNum b with
    | true =>
      rw [mumpsLt_eq_str_num a b ha hb] at h1
      exact absurd h1 (by simp)
    | false =>
      cases hc : isCanonicalNum c with
      | true =>
        rw [mumpsLt_eq_str_num b c hb hc] at h2
        exact absurd h2 (by simp)
      | false =>
        rw [mumpsLt_eq_str_str a b ha hb] at h1
        rw [mumpsLt_eq_str_str b c hb hc] at h2
        rw [mumpsLt_eq_str_str a c ha hc]
        exact lexLt_trans a b c h1 h2

theorem mumpsLt_ne (a b : PyStr) (h : mumpsLt a b = true) : a ≠ b := by
  intro he
  rw [he, mumpsLt_irrefl] at h
  exact Bool.false_ne_true h

theorem foldl_min_mem (l : List PyStr) : ∀ (a : PyStr),
    l.foldl (fun m x => if mumpsLt x m then x else m) a = a ∨
    l.foldl (fun m x => if mumpsLt x m then x else m) a ∈ l := by
  induction l with
  | nil => intro a; exact Or.inl rfl
  | cons x xs ih =>
    intro a
    simp only [List.foldl_cons]
    by_cases h : mumpsLt x a = true
    · rw [if_pos h]
      rcases ih x with h1 | h1
      · exact Or.inr (by rw [h1]; exact List.mem_cons_self x xs)
      · exact Or.inr (List.mem_cons_of_mem x h1)
    · rw [if_neg h]
      rcases ih a with h1 | h1
      · exact Or.inl h1
      · exact Or.inr (List.mem_cons_of_mem x h1)

theorem minMumps_mem (l : List PyStr) (c : PyStr) (h : minMumps l = some c) : c ∈ l := by
  cases l with
  | nil => simp [minMumps] at h
  | cons x xs =>
    unfold minMumps at h
    injection h with h
    rcases foldl_min_mem xs x with h1 | h1
    · rw [← h, h1]; exact List.mem_cons_self x xs
    · rw [← h]; exact List.mem_cons_of_mem x h1

theorem orderSub_some (cs : List PyStr) (s c : PyStr) (h : orderSub cs s = some c) :
    c ∈ cs ∧ (s = [] ∨ mumpsLt s c = true) := by
  unfold orderSub at h
  have hmem2 := List.mem_filter.mp (minMumps_mem _ c h)
  refine ⟨hmem2.1, ?_⟩
  have hp := hmem2.2
  by_cases hs : s.isEmpty = true
  · left
    cases s with
    | nil => rfl
    | cons a t => simp [List.isEmpty] at hs
  · right
    cases s with
    | nil => simp at hs
    | cons a t => simpa using hp

theorem subAfter_mem : ∀ (p q : GlobalPath) (c : PyStr), subAfter p q = some c → c ∈ q := by
  intro p
  induction p with
  | nil =>
    intro q c h
    cases q with
    | nil => simp [subAfter] at h
    | cons b t =>
      unfold subAfter at h
      have : b = c := by simpa using h
      rw [← this]
      exact List.mem_cons_self b t
  | cons a p2 ih =>
    intro q c h
    cases q with
    | nil => simp [subAfter] at h
    | cons b t =>
      unfold subAfter at h
      by_cases hab : a = b
      · rw [if_pos hab] at h
        exact List.mem_cons_of_mem b (ih t c h)
      · rw [if_neg hab] at h
        simp at h

theorem childrenAt_ne_nil_of_wf (st : GlobalStore) (p : GlobalPath) (k : PyStr)
    (hwf : wfStore st = true) (hk : k ∈ childrenAt st p) : k ≠ [] := by
  unfold childrenAt at hk
  obtain ⟨e, he, hsub⟩ := List.mem_filterMap.mp hk
  have hq := subAfter_mem p e.1 k hsub
  unfold wfStore at hwf
  have h2 := List.all_eq_true.mp (List.all_eq_true.mp hwf e he) k hq
  intro hke
  rw [hke] at h2
  simp at h2

theorem sdkOrder_ok (conn : Bool) (st : GlobalStore) (p : GlobalPath) (s : PyStr)
    (r : Option PyStr) (h : sdkOrder conn st p s = .ok r) : irisOrder st p s = r := by
  unfold sdkOrder at h
  cases conn with
  | true => simpa using h
  | false => simp at h

/-- Soundness invariant of the inner DFN walk: starting with `count` equal to
the accumulator length and below the cap, a successful run returns a count
equal to the result length, a result of at most 50 patients, and only
patients that were already accumulated or decode from a DFN registered under
the index key `nm`. -/
theorem searchDfnLoop_spec : ∀ (fuel : Nat) (conn : Bool) (st : GlobalStore)
    (nm dfn : PyStr) (acc : List Patient) (count : Nat) (res : List Patient) (cnt : Nat),
    searchDfnLoop conn st nm dfn acc count fuel = .ok (res, cnt) →
    count = acc.length → count < 50 →
    cnt = res.length ∧ res.length ≤ 50 ∧
    (∀ p ∈ res, p ∈ acc ∨ ∃ dd, dd ∈ childrenAt st [gDPT, subB, nm] ∧
      get_patient_demographics conn st dd = .ok p) := by
  intro fuel
  induction fuel with
  | zero =>
    intro conn st nm dfn acc count res cnt h hc hlt
    unfold searchDfnLoop at h
    simp only [Except.ok.injEq, Prod.mk.injEq] at h
    obtain ⟨h1, h2⟩ := h
    subst h1; subst h2
    exact ⟨hc, by omega, fun p hp => Or.inl hp⟩
  | succ fuel ih =>
    intro conn st nm dfn acc count res cnt h hc hlt
    unfold searchDfnLoop at h
    split at h
    · simp at h
    · rename_i heqo
      simp only [Except.ok.injEq, Prod.mk.injEq] at h
      obtain ⟨h1, h2⟩ := h
      subst h1; subst h2
      exact ⟨hc, by omega, fun p hp => Or.inl hp⟩
    · rename_i d heqo
      have hdmem : d ∈ childrenAt st [gDPT, subB, nm] :=
        (orderSub_some _ dfn d (sdkOrder_ok conn st [gDPT, subB, nm] dfn (some d) heqo)).1
      split at h
      · rename_i p heqd
        split at h
        · rename_i hcap
          simp only [Except.ok.injEq, Prod.mk.injEq] at h
          obtain ⟨h1, h2⟩ := h
          subst h1; subst h2
          refine ⟨by simp [hc], ?_, fun q hq => ?_⟩
          · simp only [List.length_append, List.length_cons, List.length_nil]
            omega
          · rcases List.mem_append.mp hq with hqa | hqp
            · exact Or.inl hqa
            · have hqe : q = p := by simpa using hqp
              exact Or.inr ⟨d, hdmem, hqe ▸ heqd⟩
        · rename_i hcap
          obtain ⟨g1, g2, g3⟩ := ih conn st nm d (acc ++ [p]) (count + 1) res cnt h
            (by simp [hc]) (by omega)
          refine ⟨g1, g2, fun q hq => ?_⟩
          rcases g3 q hq with hqa | hex
          · rcases List.mem_append.mp hqa with hqa2 | hqp
            · exact Or.inl hqa2
            · have hqe : q = p := by simpa using hqp
              exact Or.inr ⟨d, hdmem, hqe ▸ heqd⟩
          · exact Or.inr hex
      · rename_i m heqd
        exact ih conn st nm d acc count res cnt h hc hlt
      · simp at h

/-- Soundness invariant of the outer index-key walk: a successful run returns
at most 50 patients, and only patients already accumulated or registered
under an index key that starts with the search prefix and (when the prefix
is nonempty) is strictly greater than it in collation order. -/
theorem searchNameLoop_spec : ∀ (fuel : Nat) (conn : Bool) (st : GlobalStore)
    (pat : PyStr) (cur : Option PyStr) (acc : List Patient) (count : Nat)
    (res : List Patient),
    searchNameLoop conn st pat cur acc count fuel = .ok res →
    count = acc.length → count ≤ 50 →
    (∀ k, cur = some k → k ∈ childrenAt st [gDPT, subB] ∧
      (pat ≠ [] → mumpsLt pat k = true)) →
    res.length ≤ 50 ∧
    (∀ p ∈ res, p ∈ acc ∨ ∃ k dd, k ∈ childrenAt st [gDPT, subB] ∧
      startsWithL k pat = true ∧ (pat ≠ [] → mumpsLt pat k = true) ∧
      dd ∈ childrenAt st [gDPT, subB, k] ∧
      get_patient_demographics conn st dd = .ok p) := by
  intro fuel
  induction fuel with
  | zero =>
    intro conn st pat cur acc count res h hc hle hcur
    unfold searchNameLoop at h
    simp only [Except.ok.injEq] at h
    subst h
    exact ⟨by omega, fun p hp => Or.inl hp⟩
  | succ fuel ih =>
    intro conn st pat cur acc count res h hc hle hcur
    unfold searchNameLoop at h
    split at h
    · simp only [Except.ok.injEq] at h
      subst h
      exact ⟨by omega, fun p hp => Or.inl hp⟩
    · rename_i nm
      have hnm := hcur nm rfl
      split at h
      · rename_i hg
        have hg2 : (¬ nm = [] ∧ startsWithL nm pat = true) ∧ count < 50 := by
          simpa using hg
        split at h
        · simp at h
        · rename_i acc2 cnt2 heqi
          obtain ⟨g1, g2, g3⟩ := searchDfnLoop_spec (st.length + 1) conn st nm [] acc
            count acc2 cnt2 heqi hc hg2.2
          split at h
          · simp at h
          · rename_i nxt heqo
            have hnxt : ∀ k, nxt = some k → k ∈ childrenAt st [gDPT, subB] ∧
                (pat ≠ [] → mumpsLt pat k = true) := by
              intro k hk
              have hio := sdkOrder_ok conn st [gDPT, subB] nm nxt heqo
              rw [hk] at hio
              obtain ⟨hk1, hk2⟩ := orderSub_some _ nm k hio
              refine ⟨hk1, fun hpat => ?_⟩
              rcases hk2 with hnme | hlt2
              · exact absurd hnme hg2.1.1
              · exact mumpsLt_trans pat nm k (hnm.2 hpat) hlt2
            obtain ⟨f1, f2⟩ := ih conn st pat nxt acc2 cnt2 res h g1 (by omega) hnxt
            refine ⟨f1, fun p hp => ?_⟩
            rcases f2 p hp with hin2 | hex
            · rcases g3 p hin2 with hin | ⟨dd, hdd1, hdd2⟩
              · exact Or.inl hin
              · exact Or.inr ⟨nm, dd, hnm.1, hg2.1.2, hnm.2, hdd1, hdd2⟩
            · exact Or.inr hex
      · rename_i hg
        simp only [Except.ok.injEq] at h
        subst h
        exact ⟨by omega, fun p hp => Or.inl hp⟩

/-- Soundness of `search_patients_by_name`: a successful search returns at
most 50 patients, each registered under an index key extending the folded
pattern and strictly greater than it in collation order (when nonempty). -/
theorem search_patients_spec (conn : Bool) (st : GlobalStore) (raw : PyStr)
    (res : List Patient) (h : search_patients_by_name conn st raw = .ok res) :
    res.length ≤ 50 ∧
    (∀ p ∈ res, ∃ k dd, k ∈ childrenAt st [gDPT, subB] ∧
      startsWithL k (foldPattern raw) = true ∧
      (foldPattern raw ≠ [] → mumpsLt (foldPattern raw) k = true) ∧
      dd ∈ childrenAt st [gDPT, subB, k] ∧
      get_patient_demographics conn st dd = .ok p) := by
  unfold search_patients_by_name at h
  cases hb : searchBody conn st raw with
  | error e => rw [hb] at h; simp at h
  | ok ps =>
    rw [hb] at h
    simp only [Except.ok.injEq] at h
    subst h
    unfold searchBody at hb
    cases ho : sdkOrder conn st [gDPT, subB] (foldPattern raw) with
    | error e => rw [ho] at hb; simp at hb
    | ok cur0 =>
      rw [ho] at hb
      have hcur : ∀ k, cur0 = some k → k ∈ childrenAt st [gDPT, subB] ∧
          (foldPattern raw ≠ [] → mumpsLt (foldPattern raw) k = true) := by
        intro k hk
        have hio := sdkOrder_ok conn st [gDPT, subB] (foldPattern raw) cur0 ho
        rw [hk] at hio
        obtain ⟨hk1, hk2⟩ := orderSub_some _ (foldPattern raw) k hio
        exact ⟨hk1, fun hpat => hk2.resolve_left hpat⟩
      obtain ⟨hl, hm⟩ := searchNameLoop_spec (st.length + 1) conn st (foldPattern raw)
        cur0 [] 0 ps hb rfl (by omega) hcur
      refine ⟨hl, fun p hp => ?_⟩
      rcases hm p hp with hin | hex
      · exact absurd hin (List.not_mem_nil p)
      · exact hex

def dfn60 (i : Nat) : PyStr := Nat.toDigits 10 (i + 1)

def name60 (i : Nat) : PyStr := pystr "SMITH" ++ pyFormatNat 2 i

/-- A synthetic store with 60 patients named `SMITH..`, each with a
demographic node and a name-index entry. -/
def store60 : GlobalStore :=
  (List.range 60).flatMap (fun i =>
    [([gDPT, dfn60 i, sub0], name60 i ++ pystr "^123456789^2950115^M"),
     ([gDPT, subB, name60 i, dfn60 i], [])])

/-- C7: name-index search returns only patients registered under an index
key that starts with the case-folded, wildcard-stripped pattern, and at most
50 of them; on the synthetic 60-`SMITH..` store it returns exactly 50
results, and zero results for a non-matching prefix. -/
theorem c7_search_cap_and_prefix :
    (∀ (conn : Bool) (st : GlobalStore) (raw : PyStr) (res : List Patient),
      search_patients_by_name conn st raw = .ok res →
      res.length ≤ 50 ∧
      ∀ p ∈ res, ∃ k dd, k ∈ childrenAt st [gDPT, subB] ∧
        startsWithL k (foldPattern raw) = true ∧
        dd ∈ childrenAt st [gDPT, subB, k] ∧
        get_patient_demographics conn st dd = .ok p) ∧
    (search_patients_by_name true store60 (pystr "SMITH*")).toOption.map List.length =
      some 50 ∧
    search_patients_by_name true store60 (pystr "JONES") = .ok [] := by
  refine ⟨?_, rfl, rfl⟩
  intro conn st raw res h
  obtain ⟨hl, hm⟩ := search_patients_spec conn st raw res h
  refine ⟨hl, fun p hp => ?_⟩
  obtain ⟨k, dd, h1, h2, _, h4, h5⟩ := hm p hp
  exact ⟨k, dd, h1, h2, h4, h5⟩

def stOne : GlobalStore :=
  [([gDPT, pystr "7", sub0], pystr "SMITH,Z^999^2950101^F"),
   ([gDPT, subB, pystr "SMITH,Z", pystr "7"], [])]

def pOne : Patient :=
  ⟨pystr "7", pystr "SMITH,Z", pystr "999", pystr "1995-01-01", pystr "F",
   [], [], [], []⟩

theorem c7_search_witness :
    search_patients_by_name true stOne (pystr "SMI") = .ok [pOne] ∧
    ([pOne].length ≤ 50 ∧
      ∀ p ∈ [pOne], ∃ k dd, k ∈ childrenAt stOne [gDPT, subB] ∧
        startsWithL k (foldPattern (pystr "SMI")) = true ∧
        dd ∈ childrenAt stOne [gDPT, subB, k] ∧
        get_patient_demographics true stOne dd = .ok p) :=
  ⟨rfl, c7_search_cap_and_prefix.1 true stOne (pystr "SMI") [pOne] rfl⟩

def stExact : GlobalStore :=
  [([gDPT, pystr "1", sub0], pystr "SMITH^1^2950101^F"),
   ([gDPT, pystr "2", sub0], pystr "SMITHA^2^2950202^M"),
   ([gDPT, subB, pystr "SMITH", pystr "1"], []),
   ([gDPT, subB, pystr "SMITHA", pystr "2"], [])]

/-- C10: the outer walk starts with `order(pattern)`, which yields only keys
strictly greater than the pattern, so no returned patient is registered
under an index key exactly equal to the folded pattern; on a store holding
both an exact `"SMITH"` key and its extension `"SMITHA"`, searching
`"SMITH"` skips the exact-match patient and returns only the extension. -/
theorem c10_exact_key_skipped :
    (∀ (conn : Bool) (st : GlobalStore) (raw : PyStr) (res : List Patient) (p : Patient),
      wfStore st = true →
      search_patients_by_name conn st raw = .ok res → p ∈ res →
      ∃ k dd, k ∈ childrenAt st [gDPT, subB] ∧ k ≠ foldPattern raw ∧
        startsWithL k (foldPattern raw) = true ∧
        dd ∈ childrenAt st [gDPT, subB, k] ∧
        get_patient_demographics conn st dd = .ok p) ∧
    (search_patients_by_name true stExact (pystr "SMITH")).map (List.map Patient.name) =
      .ok [pystr "SMITHA"] := by
  constructor
  · intro conn st raw res p hwf h hp
    obtain ⟨k, dd, h1, h2, h3, h4, h5⟩ := (search_patients_spec conn st raw res h).2 p hp
    refine ⟨k, dd, h1, ?_, h2, h4, h5⟩
    by_cases hpat : foldPattern raw = []
    · rw [hpat]
      exact childrenAt_ne_nil_of_wf st [gDPT, subB] k hwf h1
    · exact fun he => (mumpsLt_ne (foldPattern raw) k (h3 hpat)) he.symm
  · rfl

def pExactA : Patient :=
  ⟨pystr "2", pystr "SMITHA", pystr "2", pystr "1995-02-02", pystr "M",
   [], [], [], []⟩

theorem c10_exact_key_witness :
    wfStore stExact = true ∧
    ∃ k dd, k ∈ childrenAt stExact [gDPT, subB] ∧ k ≠ foldPattern (pystr "SMITH") ∧
      startsWithL k (foldPattern (pystr "SMITH")) = true ∧
      dd ∈ childrenAt stExact [gDPT, subB, k] ∧
      get_patient_demographics true stExact dd = .ok pExactA :=
  ⟨by decide, c10_exact_key_skipped.1 true stExact (pystr "SMITH") [pExactA] pExactA
    (by decide) rfl (List.mem_singleton.mpr rfl)⟩

end Filebot
